import Mathlib

/-!
# Verification of the medical-awp retrieval core (src/app.go)

Shallow embedding of the document ingestion and nearest-neighbor retrieval
pipeline of the repository.  Text is modelled as `List Char` (Go code works
over `[]rune`; a Go rune is a Unicode code point, matching Lean `Char`).
`float64` values are modelled as exact reals `ℝ`; machine floating point
rounding is outside the scope of the properties treated here, which only
concern algebraic structure (symmetry, zero tests, comparisons).  Go's
truncating integer division is `Int.tdiv`.

Layout: definitions first (each one translated from a named function of
`src/app.go`, or of the earlier iteration in `src/unnamed/part_002` where
noted), then the theorems.
-/

/-- The set of characters Go's `unicode.IsSpace` accepts (the Unicode
White_Space property), used by `strings.TrimSpace` and `strings.Fields`. -/
def isGoSpace (c : Char) : Bool :=
  c = ' ' || c = '\t' || c = '\n' || (c.val ≥ 0xB && c.val ≤ 0xD) ||
  c.val = 0x85 || c.val = 0xA0 || c.val = 0x1680 ||
  (c.val ≥ 0x2000 && c.val ≤ 0x200A) || c.val = 0x2028 || c.val = 0x2029 ||
  c.val = 0x202F || c.val = 0x205F || c.val = 0x3000

/-- Go `strings.TrimSpace`: drop leading and trailing white space. -/
def goTrimSpace (l : List Char) : List Char :=
  ((l.dropWhile isGoSpace).reverse.dropWhile isGoSpace).reverse

/-- Helper for `splitOnList`; the `fuel` argument only drives termination and
is always supplied as the length of the scanned list, which suffices because
every step consumes at least one character when `sep` is non-empty. -/
def splitOnListAux (sep : List Char) : Nat → List Char → List Char → List (List Char)
  | _, [], acc => [acc.reverse]
  | 0, l, acc => [acc.reverse ++ l]
  | fuel + 1, c :: rest, acc =>
      if sep ≠ [] ∧ sep.isPrefixOf (c :: rest) then
        acc.reverse :: splitOnListAux sep fuel ((c :: rest).drop sep.length) []
      else
        splitOnListAux sep fuel rest (c :: acc)

/-- Go `strings.Split(text, sep)` for non-empty `sep`: split around the
leftmost non-overlapping occurrences of `sep`.  (The source only calls it
with a non-empty separator; `sep = []` is mapped to the identity split.) -/
def splitOnList (sep l : List Char) : List (List Char) :=
  splitOnListAux sep l.length l []

/-- Go `strings.Fields` helper: accumulate the current word (reversed). -/
def fieldsAux : List Char → List Char → List (List Char)
  | [], acc => if acc = [] then [] else [acc.reverse]
  | c :: rest, acc =>
      if isGoSpace c then
        (if acc = [] then fieldsAux rest [] else acc.reverse :: fieldsAux rest [])
      else fieldsAux rest (c :: acc)

/-- Go `strings.Fields`: split around runs of white space. -/
def goFields (l : List Char) : List (List Char) := fieldsAux l []

/-- `app.go` lines 197-210: the overlap clamping performed at the top of
`fixedLengthChunker` before its scanning loop (negative overlap to `0`;
`overlap >= chunkSize` to `chunkSize/5` with a minimum of `1`; and finally
to `0` if the chunk size is still at most the overlap).  The same three
steps are repeated verbatim in `chunkTextRecursive` (lines 342-355). -/
def clampOverlapChars (chunkSizeChars overlapChars : Int) : Int :=
  let ov1 := if overlapChars < 0 then 0 else overlapChars
  let ov2 :=
    if ov1 ≥ chunkSizeChars then
      (if chunkSizeChars.tdiv 5 = 0 ∧ chunkSizeChars > 0 then 1
       else chunkSizeChars.tdiv 5)
    else ov1
  if chunkSizeChars ≤ ov2 ∧ chunkSizeChars > 0 then 0 else ov2

/-- The scanning loop of `fixedLengthChunker` (`app.go` lines 217-239):
emit `runes[start:end]` with `end = min (start+cs) len`, stop when the end
of the text is reached, otherwise advance by `cs - ov`, forcing an advance
of one position whenever that step would not make progress. -/
def fixedLoop (runes : List Char) (cs ov : Nat) (start : Nat) : List (List Char) :=
  if h : start < runes.length then
    if he : min (start + cs) runes.length = runes.length then
      [(runes.drop start).take (min (start + cs) runes.length - start)]
    else
      (runes.drop start).take (min (start + cs) runes.length - start) ::
        fixedLoop runes cs ov
          (if start + cs - ov ≤ start ∧ min (start + cs) runes.length < runes.length
           then start + 1 else start + cs - ov)
  else []
termination_by runes.length - start
decreasing_by split <;> omega

/-- `app.go` `fixedLengthChunker`: fixed-width character chunks with overlap. -/
def fixedLengthChunker (text : List Char) (chunkSizeChars overlapChars : Int) :
    List (List Char) :=
  if text = [] ∨ chunkSizeChars ≤ 0 then []
  else
    fixedLoop text chunkSizeChars.toNat
      (clampOverlapChars chunkSizeChars overlapChars).toNat 0

/-- The merging loop of `doRecursiveSplit` (`app.go` lines 290-320): greedily
pack the already-small parts into buffers of at most `cs` characters, joining
with the separator that produced them, flushing a buffer when the next part
would not fit. -/
def mergePartsGo (cs : Int) (sep : List Char) :
    List (List Char) → List (List Char) → List Char → List (List Char)
  | [], chunks, buffer => if buffer = [] then chunks else chunks ++ [buffer]
  | part :: rest, chunks, buffer =>
      let sepLen := if buffer = [] then 0 else sep.length
      if Int.ofNat (buffer.length + sepLen + part.length) > cs ∧ buffer ≠ [] then
        mergePartsGo cs sep rest (chunks ++ [buffer]) part
      else
        mergePartsGo cs sep rest chunks
          (if buffer = [] then part else buffer ++ sep ++ part)

/-- The merge phase of `doRecursiveSplit`, started with empty output and an
empty buffer. -/
def mergeParts (cs : Int) (sep : List Char) (parts : List (List Char)) :
    List (List Char) :=
  mergePartsGo cs sep parts [] []

/-- `app.go` `doRecursiveSplit`: split on the current separator; recurse with
the remaining separators on parts that are still too large while keeping the
small parts (the `goodParts` loop of lines 273-285 is the `flatMap`); merge
the small parts back; and filter out whitespace-only chunks.  The separator
list is the structurally decreasing argument of the recursion. -/
def doRecursiveSplit (cs ov : Int) (text : List Char) :
    List (List Char) → List (List Char)
  | [] =>
      if text = [] then []
      else if Int.ofNat text.length ≤ cs then [text]
      else fixedLengthChunker text cs ov
  | sep :: rest =>
      if text = [] then []
      else if Int.ofNat text.length ≤ cs ∧ sep = [] ∧ rest = [] then [text]
      else if sep = [] then fixedLengthChunker text cs ov
      else
        let goodParts :=
          (splitOnList sep text).flatMap fun part =>
            if part = [] then []
            else if Int.ofNat part.length > cs then doRecursiveSplit cs ov part rest
            else [part]
        (mergeParts cs sep goodParts).filter (fun c => goTrimSpace c ≠ [])

/-- `app.go` `defaultRecursiveSeparators`. -/
def defaultRecursiveSeparators : List (List Char) :=
  ["\n\n".toList, "\n".toList, ". ".toList, "! ".toList, "? ".toList,
   "; ".toList, ", ".toList, " ".toList, []]

/-- `app.go` `chunkTextRecursive`: validate the parameters (non-positive chunk
size returns the whole text as a single chunk, or nothing for empty text; the
overlap is clamped by the same three steps as in `fixedLengthChunker`) and run
the recursive splitter over the default separator cascade. -/
def chunkTextRecursive (text : List Char) (chunkSizeChars overlapChars : Int) :
    List (List Char) :=
  if chunkSizeChars ≤ 0 then (if text = [] then [] else [text])
  else
    doRecursiveSplit chunkSizeChars (clampOverlapChars chunkSizeChars overlapChars)
      text defaultRecursiveSeparators

/-- The effective word-chunk size of `chunkText` of `src/unnamed/part_002`
(`chunkSize <= 0` defaults to 200 words). -/
def chunkTextCS (chunkSize : Int) : Int :=
  if chunkSize ≤ 0 then 200 else chunkSize

/-- The effective word overlap of `chunkText` of `src/unnamed/part_002`
(negative overlap to 0; overlap at least the chunk size to a quarter of it). -/
def chunkTextOV (chunkSize overlap : Int) : Int :=
  if (if overlap < 0 then 0 else overlap) ≥ chunkTextCS chunkSize then
    (chunkTextCS chunkSize).tdiv 4
  else if overlap < 0 then 0 else overlap

/-- After clamping, the word overlap is strictly below the word chunk size,
which is what makes the scanning loop of `chunkText` advance. -/
theorem chunkTextOV_lt (chunkSize overlap : Int) :
    (chunkTextOV chunkSize overlap).toNat < (chunkTextCS chunkSize).toNat := by
  have hcs : 1 ≤ chunkTextCS chunkSize := by
    unfold chunkTextCS; split <;> omega
  unfold chunkTextOV
  rw [Int.tdiv_eq_ediv (by omega) (by omega)]
  split_ifs <;> omega

/-- The scanning loop of the word-based `chunkText` of the earlier iteration
(`src/unnamed/part_002` lines 177-189).  The clamping performed by its caller
guarantees `ov < cs`, which is carried as an argument so the advance
`i + cs - ov` strictly increases. -/
def wordLoop (words : List (List Char)) (cs ov : Nat) (hov : ov < cs) (i : Nat) :
    List (List Char) :=
  if h : i < words.length then
    List.intercalate [' ']
        ((words.drop i).take (min (i + cs) words.length - i)) ::
      wordLoop words cs ov hov (i + cs - ov)
  else []
termination_by words.length - i
decreasing_by omega

/-- `src/unnamed/part_002` `chunkText`: word-based fixed chunking with
overlap; the text is split into words by `strings.Fields` and chunks are the
words joined back with single spaces. -/
def chunkText (text : List Char) (chunkSize overlap : Int) : List (List Char) :=
  let words := goFields text
  if words.length = 0 then []
  else
    wordLoop words (chunkTextCS chunkSize).toNat (chunkTextOV chunkSize overlap).toNat
      (chunkTextOV_lt chunkSize overlap) 0

/-- `app.go` `DocumentChunk`: one stored record of the document store.  The
`Score` field is zero in stored records and is filled in on the copies that
`findRelevantChunks` returns. -/
structure DocumentChunk where
  ID : Nat
  Text : List Char
  Embedding : List ℝ
  SourceFile : List Char
  Score : ℝ

/-- The error causes of `cosineSimilarity` (`app.go` lines 464-469); the Go
code reports them as formatted error strings, the mismatch one carrying the
two lengths. -/
inductive CosErr where
  | lengthMismatch (la lb : Nat)
  | emptyVectors
deriving Repr, DecidableEq

/-- `app.go` `cosineSimilarity`: reject vectors of different lengths, then
empty vectors; return similarity `0` when either magnitude is zero, and
`dot / (|A| * |B|)` otherwise.  The accumulation loop over the indices is the
`zipWith`/`map` sums. -/
noncomputable def cosineSimilarity (vecA vecB : List ℝ) : Except CosErr ℝ :=
  if vecA.length ≠ vecB.length then
    .error (.lengthMismatch vecA.length vecB.length)
  else if vecA.length = 0 then .error .emptyVectors
  else
    let dotProduct := (List.zipWith (fun a b => a * b) vecA vecB).sum
    let magnitudeA := Real.sqrt ((vecA.map fun a => a * a).sum)
    let magnitudeB := Real.sqrt ((vecB.map fun b => b * b).sum)
    if magnitudeA = 0 ∨ magnitudeB = 0 then .ok 0
    else .ok (dotProduct / (magnitudeA * magnitudeB))

/-- `app.go` `rankedChunk`: a chunk paired with its similarity score. -/
structure rankedChunk where
  chunk : DocumentChunk
  score : ℝ

/-- The contract Go documents for `sort.Slice` with the comparator of
`app.go` lines 528-530 (`score i > score j`): the slice is permuted into an
order where no later element has a larger score.  `sort.Slice` is documented
as *not* guaranteed to be stable, so the relative order of equal scores is
unspecified; any function satisfying this predicate is an admissible
behavior. -/
def SortSliceOK (f : List rankedChunk → List rankedChunk) : Prop :=
  ∀ l, (f l).Perm l ∧ (f l).Pairwise (fun a b => b.score ≤ a.score)

/-- The ranking scan of `findRelevantChunks` (`app.go` lines 512-525): skip
chunks with an empty stored embedding, skip chunks whose similarity
computation reports an error, keep the rest with their scores, in store
order. -/
noncomputable def rankedChunksOf (queryEmbedding : List ℝ)
    (documentStore : List DocumentChunk) : List rankedChunk :=
  documentStore.filterMap fun chunk =>
    if chunk.Embedding.length = 0 then none
    else
      match cosineSimilarity queryEmbedding chunk.Embedding with
      | .error _ => none
      | .ok similarity => some ⟨chunk, similarity⟩

/-- `app.go` `findRelevantChunks`, parametrized by the behavior `sortImpl` of
`sort.Slice` (see `SortSliceOK`): empty store yields the empty list; a
non-positive `topN` defaults to 3; the ranked scan is sorted and the first
`min topN (number of ranked chunks)` entries are returned with their scores
written into the `Score` field. -/
noncomputable def findRelevantChunks (sortImpl : List rankedChunk → List rankedChunk)
    (documentStore : List DocumentChunk) (queryEmbedding : List ℝ) (topN : Int) :
    List DocumentChunk :=
  if documentStore.length = 0 then []
  else
    let topN' := if topN ≤ 0 then 3 else topN
    let sorted := sortImpl (rankedChunksOf queryEmbedding documentStore)
    let numToReturn := min topN' (Int.ofNat sorted.length)
    (sorted.take numToReturn.toNat).map fun rc => { rc.chunk with Score := rc.score }

/-- Comparator of `app.go` lines 528-530 read as a non-strict order: `b` may
follow `a` exactly when `b.score > a.score` is false. -/
def rankedLE (a b : rankedChunk) : Prop := b.score ≤ a.score

/-- Scores live in `ℝ`, so comparing them is classical. -/
noncomputable instance : DecidableRel rankedLE :=
  fun _ _ => Classical.propDecidable _

/-- A sorted permutation always exists: insertion sort on the score order is
one admissible `sort.Slice` behavior. -/
noncomputable def goodSortRanked (l : List rankedChunk) : List rankedChunk :=
  List.insertionSort rankedLE l

/-- Another admissible `sort.Slice` behavior: stable-sort the *reversed*
list, which orders equal scores by descending insertion position. -/
noncomputable def badSortRanked (l : List rankedChunk) : List rankedChunk :=
  List.insertionSort rankedLE l.reverse

/-- The possible outcomes of the HTTP round trip inside `getOllamaEmbedding`
(`app.go` lines 136-170): connection failure, non-200 status, undecodable
body, or a decoded `OllamaEmbeddingResponse` carrying an embedding vector. -/
inductive EmbedResponse where
  | connError
  | httpError
  | badJSON
  | decoded (embedding : List ℝ)

/-- The error causes `getOllamaEmbedding` reports. -/
inductive EmbedErr where
  | connect
  | status
  | parse
  | emptyEmbedding
deriving DecidableEq

/-- `app.go` `getOllamaEmbedding`, as a function of the network outcome: each
transport failure becomes the corresponding error, and a decoded response
whose embedding has length zero is rejected with an error (lines 172-175), so
success always carries a non-empty vector. -/
def getOllamaEmbedding (resp : EmbedResponse) : Except EmbedErr (List ℝ) :=
  match resp with
  | .connError => .error .connect
  | .httpError => .error .status
  | .badJSON => .error .parse
  | .decoded embedding =>
      if embedding.length = 0 then .error .emptyEmbedding
      else .ok embedding

/-- The mutable state `a.mu` protects: the store and the next id
(`app.go` lines 53-54). -/
structure LoadState where
  documentStore : List DocumentChunk
  nextDocumentID : Nat

/-- One directory entry as `LoadPersonalData` sees it: its name, whether it
is a directory, and the result of `os.ReadFile` on it. -/
structure FileEntry where
  name : List Char
  isDir : Bool
  content : Except String (List Char)

/-- Case-insensitive `.txt` test of `app.go` line 411
(`strings.HasSuffix(strings.ToLower(name), ".txt")`). -/
def endsWithTxt (name : List Char) : Bool :=
  ".txt".toList.isSuffixOf (name.map Char.toLower)

/-- The per-file chunk loop of `LoadPersonalData` (`app.go` lines 431-452),
parametrized by the network behavior `net`: skip whitespace-only chunks, skip
chunks whose embedding fails, append the rest with the next sequential id and
the file name, returning the new state and the number of chunks appended. -/
def processChunks (net : List Char → EmbedResponse) (fileName : List Char)
    (st : LoadState) : List (List Char) → LoadState × Nat
  | [] => (st, 0)
  | chunkTxt :: more =>
      if goTrimSpace chunkTxt = [] then processChunks net fileName st more
      else
        match getOllamaEmbedding (net chunkTxt) with
        | .error _ => processChunks net fileName st more
        | .ok embedding =>
            let st' : LoadState :=
              { documentStore := st.documentStore ++
                  [{ ID := st.nextDocumentID, Text := chunkTxt,
                     Embedding := embedding, SourceFile := fileName, Score := 0 }],
                nextDocumentID := st.nextDocumentID + 1 }
            let r := processChunks net fileName st' more
            (r.1, r.2 + 1)

/-- The directory loop of `LoadPersonalData` (`app.go` lines 410-455): visit
each entry; skip directories and names not ending in `.txt`; skip files whose
read fails; otherwise chunk the content with the default parameters and run
the chunk loop.  Returns the final state, the number of files processed and
the number of chunks loaded. -/
def loadFiles (net : List Char → EmbedResponse) :
    List FileEntry → LoadState → LoadState × Nat × Nat
  | [], st => (st, 0, 0)
  | e :: rest, st =>
      if e.isDir = false ∧ endsWithTxt e.name = true then
        match e.content with
        | .error _ => loadFiles net rest st
        | .ok content =>
            let pc := processChunks net e.name st (chunkTextRecursive content 1000 100)
            let r := loadFiles net rest pc.1
            (r.1, r.2.1 + 1, r.2.2 + pc.2)
      else loadFiles net rest st

/-- Outcome of `runtime.OpenDirectoryDialog`: either an error carrying its
message, or a selected path (possibly empty, meaning cancellation). -/
inductive DialogResult where
  | dlgError (msg : String)
  | selected (path : String)

/-- `app.go` `LoadPersonalData`, as a function of the external collaborators
(network behavior, dialog outcome, directory read outcome) and the prior
state: the dialog error `shellItem is nil` and an empty selected path are
cancellations that leave the state untouched; any other dialog error also
returns before mutating; otherwise the store is cleared and the id counter
reset, then a directory read failure returns the error over the cleared
store, and a successful read runs the directory loop and reports the
summary. -/
def LoadPersonalData (net : List Char → EmbedResponse) (dialog : DialogResult)
    (readDir : Except String (List FileEntry)) (st : LoadState) :
    String × LoadState :=
  match dialog with
  | .dlgError msg =>
      if msg = "shellItem is nil" then
        ("Document loading cancelled by user (dialog closed).", st)
      else ("error opening directory dialog: " ++ msg, st)
  | .selected directoryPath =>
      if directoryPath = "" then
        ("Document loading cancelled by user (no directory selected).", st)
      else
        let cleared : LoadState := { documentStore := [], nextDocumentID := 1 }
        match readDir with
        | .error e =>
            ("error reading directory " ++ directoryPath ++ ": " ++ e, cleared)
        | .ok dirEntries =>
            let r := loadFiles net dirEntries cleared
            ("Successfully processed " ++ toString r.2.1 ++ " files, loaded " ++
               toString r.2.2 ++ " chunks into document store from " ++
               directoryPath ++ ".", r.1)

/-- The successive values of `a.documentStore` produced by the chunk loop of
`LoadPersonalData`, one per append.  Together with `ingestionStoreStates`
below this enumerates every intermediate value the shared field takes while
an ingestion run is mutating it. -/
def processChunksStates (net : List Char → EmbedResponse) (fileName : List Char)
    (st : LoadState) : List (List Char) → List (List DocumentChunk)
  | [] => []
  | chunkTxt :: more =>
      if goTrimSpace chunkTxt = [] then processChunksStates net fileName st more
      else
        match getOllamaEmbedding (net chunkTxt) with
        | .error _ => processChunksStates net fileName st more
        | .ok embedding =>
            let st' : LoadState :=
              { documentStore := st.documentStore ++
                  [{ ID := st.nextDocumentID, Text := chunkTxt,
                     Embedding := embedding, SourceFile := fileName, Score := 0 }],
                nextDocumentID := st.nextDocumentID + 1 }
            st'.documentStore :: processChunksStates net fileName st' more

/-- The store states taken during the directory loop, in mutation order. -/
def loadFilesStates (net : List Char → EmbedResponse) :
    List FileEntry → LoadState → List (List DocumentChunk)
  | [], _ => []
  | e :: rest, st =>
      if e.isDir = false ∧ endsWithTxt e.name = true then
        match e.content with
        | .error _ => loadFilesStates net rest st
        | .ok content =>
            let chunks := chunkTextRecursive content 1000 100
            processChunksStates net e.name st chunks ++
              loadFilesStates net rest (processChunks net e.name st chunks).1
      else loadFilesStates net rest st

/-- Every value of the shared `a.documentStore` field from the moment a
(successful-dialog, successful-read) ingestion run clears it until the run
finishes: the cleared store (`app.go` line 398) followed by the state after
each append (line 449).  `HandleMessage` reads `a.documentStore` through
`findRelevantChunks` (lines 503-543) without acquiring `a.mu`, so a read that
is concurrent with an ingestion run can observe any element of this list. -/
def ingestionStoreStates (net : List Char → EmbedResponse)
    (dirEntries : List FileEntry) : List (List DocumentChunk) :=
  [] :: loadFilesStates net dirEntries { documentStore := [], nextDocumentID := 1 }

/-- `app.go` line 29: the relevance gate threshold. -/
noncomputable def ragRelevanceThreshold : ℝ := 0.5

/-- The per-chunk context block of the prompt builder (`app.go` lines
752-753): the header written by `fmt.Sprintf` followed by the chunk text.
`fmtScore` stands for the `%.2f` rendering of the score, which is taken as a
parameter; note the Go format strings contain the two characters `\` `n`
(the source escapes the backslash), not newlines. -/
def ragChunkBlock (fmtScore : ℝ → List Char) (chunk : DocumentChunk) : List Char :=
  "Context from document \x27".toList ++ chunk.SourceFile ++
    "\x27 (Chunk ".toList ++ (toString chunk.ID).toList ++
    ", Relevance: ".toList ++ fmtScore chunk.Score ++ "):\\n".toList ++
    chunk.Text

/-- The chunk loop of the prompt builder (`app.go` lines 747-759): blocks are
separated by `\n\n---\n\n` (literal backslashes) and the last block is
followed by `\n\n`. -/
def ragChunksBody (fmtScore : ℝ → List Char) : List DocumentChunk → List Char
  | [] => []
  | [chunk] => ragChunkBlock fmtScore chunk ++ "\\n\\n".toList
  | chunk :: next :: more =>
      ragChunkBlock fmtScore chunk ++ "\\n\\n---\\n\\n".toList ++
        ragChunksBody fmtScore (next :: more)

/-- The full augmented prompt (`app.go` lines 744-761): preamble, context
blocks, then the user's question. -/
def ragPrompt (fmtScore : ℝ → List Char) (relevantChunks : List DocumentChunk)
    (userInput : List Char) : List Char :=
  "Use the following context to answer the user\x27s question:\\n\\n".toList ++
    ragChunksBody fmtScore relevantChunks ++
    "User\x27s question: ".toList ++ userInput

/-- The prompt-assembly core of `HandleMessage` (`app.go` lines 738-770),
parametrized by the query embedding (the result of the external embedding
call of step 1), the `sort.Slice` behavior, and the score renderer: RAG
context is used exactly when the ranked list is non-empty and its top score
reaches `ragRelevanceThreshold`; otherwise `finalPrompt` is the user input
unchanged. -/
noncomputable def handleMessagePrompt (sortImpl : List rankedChunk → List rankedChunk)
    (documentStore : List DocumentChunk) (queryEmbedding : List ℝ)
    (userInput : List Char) (fmtScore : ℝ → List Char) : List Char :=
  match findRelevantChunks sortImpl documentStore queryEmbedding 3 with
  | [] => userInput
  | c0 :: rest =>
      if c0.Score ≥ ragRelevanceThreshold then
        ragPrompt fmtScore (c0 :: rest) userInput
      else userInput

/-! ## Theorems -/

/-- C5 (counterexample): the claim quantifies over *every* parameter choice,
but with `chunkSizeChars = 0` the validation branch of `chunkTextRecursive`
(`app.go` lines 335-341) returns the whole text as a single chunk, so an
all-whitespace input comes back as an all-whitespace chunk. -/
theorem chunkTextRecursive_whitespace_chunk_cex :
    chunkTextRecursive "   ".toList 0 0 = ["   ".toList] ∧
    goTrimSpace "   ".toList = [] := by
  constructor <;> rfl

/-- C5 (amended): for a positive chunk size, every chunk produced by
`chunkTextRecursive` has a non-empty `strings.TrimSpace`; and the empty input
yields the empty chunk list for every parameter choice. -/
theorem chunkTextRecursive_nonempty :
    ∀ (text : List Char) (cs ov : Int),
      (1 ≤ cs → ∀ c ∈ chunkTextRecursive text cs ov, goTrimSpace c ≠ []) ∧
      (text = [] → chunkTextRecursive text cs ov = []) := by
  intro text cs ov
  constructor
  · intro hcs c hc
    unfold chunkTextRecursive at hc
    rw [if_neg (by omega)] at hc
    unfold defaultRecursiveSeparators at hc
    unfold doRecursiveSplit at hc
    by_cases htext : text = []
    · rw [if_pos htext] at hc
      simp at hc
    · rw [if_neg htext] at hc
      rw [if_neg (by intro hand; exact absurd hand.2.1 (by decide))] at hc
      rw [if_neg (by decide)] at hc
      simp only [List.mem_filter] at hc
      exact of_decide_eq_true hc.2
  · intro htext
    unfold chunkTextRecursive
    subst htext
    split
    · simp
    · unfold defaultRecursiveSeparators doRecursiveSplit
      simp

/-- C5 (witness): the amended theorem at a concrete input. -/
theorem chunkTextRecursive_nonempty_witness :
    (∀ c ∈ chunkTextRecursive " a \n\n b ".toList 3 1, goTrimSpace c ≠ []) ∧
    chunkTextRecursive [] 3 1 = [] := by
  refine ⟨(chunkTextRecursive_nonempty " a \n\n b ".toList 3 1).1 (by decide), ?_⟩
  exact (chunkTextRecursive_nonempty [] 3 1).2 rfl

/-- C2 (counterexample): the recursive separator-cascade splitter drops the
separator characters between emitted chunks, so the newline characters of
this input appear in no chunk at all and no overlap accounting can
reconstruct the input. -/
theorem recursiveSplit_drops_separators_cex :
    chunkTextRecursive "aa\n\nbb".toList 2 0 = ["aa".toList, "bb".toList] ∧
    '\n' ∈ "aa\n\nbb".toList ∧
    '\n' ∉ "aa".toList ∧ '\n' ∉ "bb".toList := by
  refine ⟨by decide, by decide, by decide, by decide⟩

/-- Each run of the character scanning loop emits at most one chunk per
remaining character: the loop terminates with linear output. -/
theorem fixedLoop_length_le (runes : List Char) (cs ov : Nat) (start : Nat) :
    (fixedLoop runes cs ov start).length ≤ runes.length - start := by
  have H : ∀ n, ∀ start, runes.length - start ≤ n →
      (fixedLoop runes cs ov start).length ≤ runes.length - start := by
    intro n
    induction n with
    | zero =>
        intro start h0
        rw [fixedLoop, dif_neg (by omega)]
        simp
    | succ n ih =>
        intro start hle
        by_cases h : start < runes.length
        · rw [fixedLoop, dif_pos h]
          by_cases he : min (start + cs) runes.length = runes.length
          · rw [dif_pos he]
            simp only [List.length_cons, List.length_nil]
            omega
          · rw [dif_neg he]
            simp only [List.length_cons]
            have hns : start <
                (if start + cs - ov ≤ start ∧ min (start + cs) runes.length < runes.length
                 then start + 1 else start + cs - ov) := by
              split <;> omega
            have := ih
              (if start + cs - ov ≤ start ∧ min (start + cs) runes.length < runes.length
               then start + 1 else start + cs - ov) (by omega)
            omega
        · rw [fixedLoop, dif_neg h]
          simp
  exact H _ start le_rfl

/-- The scanning loop makes strict forward progress: whenever it emits a
chunk, the next iteration starts strictly further right, for every parameter
pair (including overlap at least the chunk size, where the in-loop guard of
`app.go` lines 229-233 forces an advance of one). -/
theorem fixedLoop_progress (runes : List Char) (cs ov start : Nat)
    (h : start < runes.length) :
    ∃ chunk ns, start < ns ∧
      fixedLoop runes cs ov start = chunk :: fixedLoop runes cs ov ns := by
  by_cases he : min (start + cs) runes.length = runes.length
  · refine ⟨(runes.drop start).take (min (start + cs) runes.length - start),
      runes.length, h, ?_⟩
    conv_lhs => rw [fixedLoop]
    rw [dif_pos h, dif_pos he]
    conv_rhs => rw [fixedLoop]
    rw [dif_neg (lt_irrefl _)]
  · refine ⟨(runes.drop start).take (min (start + cs) runes.length - start),
      (if start + cs - ov ≤ start ∧ min (start + cs) runes.length < runes.length
       then start + 1 else start + cs - ov), ?_, ?_⟩
    · split <;> omega
    · conv_lhs => rw [fixedLoop]
      rw [dif_pos h, dif_neg he]

/-- The word scanning loop of `chunkText` likewise emits at most one chunk
per remaining word. -/
theorem wordLoop_length_le (words : List (List Char)) (cs ov : Nat)
    (hov : ov < cs) (i : Nat) :
    (wordLoop words cs ov hov i).length ≤ words.length - i := by
  have H : ∀ n, ∀ i, words.length - i ≤ n →
      (wordLoop words cs ov hov i).length ≤ words.length - i := by
    intro n
    induction n with
    | zero =>
        intro i h0
        rw [wordLoop, dif_neg (by omega)]
        simp
    | succ n ih =>
        intro i hle
        by_cases h : i < words.length
        · rw [wordLoop, dif_pos h]
          simp only [List.length_cons]
          have := ih (i + cs - ov) (by omega)
          omega
        · rw [wordLoop, dif_neg h]
          simp
  exact H _ i le_rfl

/-- C6: both fixed-width chunking loops terminate for every input and every
`(chunkSize, overlap)` pair — witnessed by the linear output bounds (one
chunk consumes at least one unit of input) — and the character loop makes
strict forward progress at every step, so no adjacent chunks can coincide
because of a zero advance. -/
theorem fixedChunking_terminates_and_advances :
    ∀ (text textW : List Char) (cs ov : Int) (cs' ov' start : Nat),
      (fixedLengthChunker text cs ov).length ≤ text.length ∧
      (chunkText textW cs ov).length ≤ (goFields textW).length ∧
      (start < text.length →
        ∃ chunk ns, start < ns ∧
          fixedLoop text cs' ov' start = chunk :: fixedLoop text cs' ov' ns) := by
  intro text textW cs ov cs' ov' start
  refine ⟨?_, ?_, fun h => fixedLoop_progress text cs' ov' start h⟩
  · unfold fixedLengthChunker
    split
    · simp
    · have := fixedLoop_length_le text cs.toNat
        (clampOverlapChars cs ov).toNat 0
      omega
  · unfold chunkText
    dsimp only
    split
    · simp
    · have := wordLoop_length_le (goFields textW) (chunkTextCS cs).toNat
        (chunkTextOV cs ov).toNat (chunkTextOV_lt cs ov) 0
      omega

/-- C6 (witness): the termination bound and the progress property at a
concrete input (chunk size 1, overlap 3, which exercises the clamping). -/
theorem fixedChunking_terminates_and_advances_witness :
    (fixedLengthChunker "ab".toList 1 3).length ≤ 2 ∧
    (chunkText "a b".toList 1 3).length ≤ 2 ∧
    fixedLoop "ab".toList 1 3 0 ≠ [] := by
  obtain ⟨h1, h2, h3⟩ :=
    fixedChunking_terminates_and_advances "ab".toList "a b".toList 1 3 1 3 0
  obtain ⟨chunk, ns, hns, heq⟩ := h3 (by decide)
  refine ⟨by simpa using h1, by simpa using h2, ?_⟩
  rw [heq]
  simp

/-- What "concatenating all produced chunks accounting for the overlap"
means for the fixed-width splitter: keep the first chunk whole and drop the
first `ov` characters (the overlap carried over from its predecessor) of
every later chunk. -/
def reconstructWithOverlap (ov : Nat) : List (List Char) → List Char
  | [] => []
  | chunk :: rest => chunk ++ (rest.map (List.drop ov)).flatten

/-- The clamping of `fixedLengthChunker` always yields an overlap that is
non-negative and strictly below a positive chunk size. -/
theorem clampOverlapChars_bounds (cs ov : Int) (h : 1 ≤ cs) :
    0 ≤ clampOverlapChars cs ov ∧ clampOverlapChars cs ov < cs := by
  have hdiv : cs.tdiv 5 = cs / 5 := Int.tdiv_eq_ediv (by omega) (by omega)
  have h5 : cs / 5 < cs := (Int.ediv_lt_iff_lt_mul (by omega)).mpr (by omega)
  have h0 : 0 ≤ cs / 5 := Int.ediv_nonneg (by omega) (by omega)
  unfold clampOverlapChars
  simp only [hdiv]
  split_ifs <;> omega

/-- Coverage invariant of the character scanning loop: starting anywhere
inside the text, the emitted chunk list reconstructs exactly the remaining
suffix, and the leading chunk has length `min cs (remaining)`.  Requires the
clamped-parameter precondition `ov < cs` established by
`clampOverlapChars_bounds`. -/
theorem fixedLoop_cover (runes : List Char) (cs ov : Nat) (hov : ov < cs) :
    ∀ start, start < runes.length →
      ∃ chunk rest, fixedLoop runes cs ov start = chunk :: rest ∧
        chunk ++ (rest.map (List.drop ov)).flatten = runes.drop start ∧
        chunk.length = min cs (runes.length - start) := by
  have H : ∀ n, ∀ start, runes.length - start ≤ n → start < runes.length →
      ∃ chunk rest, fixedLoop runes cs ov start = chunk :: rest ∧
        chunk ++ (rest.map (List.drop ov)).flatten = runes.drop start ∧
        chunk.length = min cs (runes.length - start) := by
    intro n
    induction n with
    | zero => intro start h0 h; omega
    | succ n ih =>
        intro start _ h
        by_cases he : min (start + cs) runes.length = runes.length
        · refine ⟨(runes.drop start).take (min (start + cs) runes.length - start),
            [], ?_, ?_, ?_⟩
          · conv_lhs => rw [fixedLoop]
            rw [dif_pos h, dif_pos he]
          · simp only [List.map_nil, List.flatten_nil, List.append_nil, he]
            rw [show runes.length - start = (runes.drop start).length by simp]
            exact List.take_length _
          · simp only [List.length_take, List.length_drop]
            omega
        · have hmin : min (start + cs) runes.length = start + cs := by omega
          have hcond :
              ¬(start + cs - ov ≤ start ∧ min (start + cs) runes.length < runes.length) := by
            omega
          have hns_lt : start + cs - ov < runes.length := by omega
          obtain ⟨c', rest', heq', hcov', hlen'⟩ :=
            ih (start + cs - ov) (by omega) hns_lt
          refine ⟨(runes.drop start).take (min (start + cs) runes.length - start),
            c' :: rest', ?_, ?_, ?_⟩
          · conv_lhs => rw [fixedLoop]
            rw [dif_pos h, dif_neg he, if_neg hcond, heq']
          · have hlt2 : start + cs < runes.length := by omega
            have hovle : ov ≤ c'.length := by
              rw [hlen']
              exact le_min (le_of_lt hov) (by omega)
            calc (runes.drop start).take (min (start + cs) runes.length - start) ++
                  ((c' :: rest').map (List.drop ov)).flatten
                = (runes.drop start).take (min (start + cs) runes.length - start) ++
                    (c'.drop ov ++ (rest'.map (List.drop ov)).flatten) := by
                  simp
              _ = (runes.drop start).take (min (start + cs) runes.length - start) ++
                    (c' ++ (rest'.map (List.drop ov)).flatten).drop ov := by
                  rw [List.drop_append_of_le_length hovle]
              _ = (runes.drop start).take (min (start + cs) runes.length - start) ++
                    ((runes.drop (start + cs - ov)).drop ov) := by rw [hcov']
              _ = (runes.drop start).take (min (start + cs) runes.length - start) ++
                    runes.drop (start + cs) := by
                  rw [List.drop_drop, show start + cs - ov + ov = start + cs by omega]
              _ = (runes.drop start).take cs ++ (runes.drop start).drop cs := by
                  rw [hmin, List.drop_drop, show start + cs - start = cs by omega]
              _ = runes.drop start := List.take_append_drop _ _
          · simp only [List.length_take, List.length_drop]
            omega
  intro start h
  exact H (runes.length - start) start le_rfl h

/-- C2 (amended): for the fixed-width character splitter with a positive
chunk size, concatenating the chunks while dropping the effective (clamped)
overlap from each later chunk reconstructs the input exactly, with no gaps.
(The recursive splitter does not satisfy the claim; see the counterexample.) -/
theorem fixedLengthChunker_coverage :
    ∀ (text : List Char) (cs ov : Int), 1 ≤ cs →
      reconstructWithOverlap (clampOverlapChars cs ov).toNat
        (fixedLengthChunker text cs ov) = text := by
  intro text cs ov hcs
  unfold fixedLengthChunker
  by_cases htext : text = []
  · rw [if_pos (Or.inl htext), htext]
    rfl
  · rw [if_neg (by push_neg; exact ⟨htext, by omega⟩)]
    have hb := clampOverlapChars_bounds cs ov hcs
    have hov : (clampOverlapChars cs ov).toNat < cs.toNat := by omega
    have hlen : 0 < text.length := by
      cases text with
      | nil => exact absurd rfl htext
      | cons a l => simp
    obtain ⟨chunk, rest, heq, hcov, -⟩ :=
      fixedLoop_cover text cs.toNat (clampOverlapChars cs ov).toNat hov 0 hlen
    rw [heq]
    simp only [reconstructWithOverlap]
    rw [hcov]
    simp

/-- C2 (witness): the amended coverage theorem at a concrete input. -/
theorem fixedLengthChunker_coverage_witness :
    reconstructWithOverlap (clampOverlapChars 3 1).toNat
      (fixedLengthChunker "abcdefgh".toList 3 1) = "abcdefgh".toList :=
  fixedLengthChunker_coverage "abcdefgh".toList 3 1 (by norm_num)

/-- Whether the embedding call for a chunk succeeds under network behavior
`net`. -/
def embedSucceeds (net : List Char → EmbedResponse) (c : List Char) : Bool :=
  match getOllamaEmbedding (net c) with
  | .ok _ => true
  | .error _ => false

/-- Whether the chunk loop of `LoadPersonalData` appends a chunk: it is not
whitespace-only and its embedding succeeds. -/
def chunkAccepted (net : List Char → EmbedResponse) (c : List Char) : Bool :=
  decide (goTrimSpace c ≠ []) && embedSucceeds net c

/-- A list splits into the elements satisfying a predicate and the rest. -/
theorem length_filter_add_length_filter_not (p : α → Bool) (l : List α) :
    (l.filter p).length + (l.filter (fun a => !(p a))).length = l.length := by
  induction l with
  | nil => simp
  | cons a l ih =>
      by_cases hp : p a = true
      · simp [List.filter_cons, hp, ← ih]
        omega
      · simp only [Bool.not_eq_true] at hp
        simp [List.filter_cons, hp, ← ih]
        omega

/-- The chunk loop appends exactly the accepted chunks: its count is the
number of accepted chunks, and the store grows by that count. -/
theorem processChunks_spec (net : List Char → EmbedResponse) (fn : List Char) :
    ∀ (chunks : List (List Char)) (st : LoadState),
      (processChunks net fn st chunks).2 =
        (chunks.filter (chunkAccepted net)).length ∧
      (processChunks net fn st chunks).1.documentStore.length =
        st.documentStore.length + (processChunks net fn st chunks).2 := by
  intro chunks
  induction chunks with
  | nil => intro st; simp [processChunks]
  | cons c more ih =>
      intro st
      by_cases hws : goTrimSpace c = []
      · have hacc : chunkAccepted net c = false := by
          simp [chunkAccepted, hws]
        simp only [processChunks, if_pos hws, List.filter_cons, hacc]
        simpa using ih st
      · have hne : (goTrimSpace c = []) = False := eq_false hws
        cases hge : getOllamaEmbedding (net c) with
        | error e =>
            have hacc : chunkAccepted net c = false := by
              simp [chunkAccepted, embedSucceeds, hge]
            simp only [processChunks, if_neg hws, hge, List.filter_cons, hacc]
            simpa using ih st
        | ok emb =>
            have hacc : chunkAccepted net c = true := by
              simp [chunkAccepted, embedSucceeds, hge, hws]
            simp only [processChunks, if_neg hws, hge, List.filter_cons, hacc, if_true]
            have h2 := ih ⟨st.documentStore ++
              [⟨st.nextDocumentID, c, emb, fn, 0⟩], st.nextDocumentID + 1⟩
            simp at h2 ⊢
            omega

/-- C4: during one `LoadPersonalData` run, for a readable `.txt` file whose
chunking yields five non-whitespace chunks of which exactly one fails to
embed, exactly four records are appended, the file still counts as processed
(`+ 1` in the summary), and the directory loop continues with the remaining
entries from the post-file state. -/
theorem loadPersonalData_chunk_failure_isolation :
    ∀ (net : List Char → EmbedResponse) (name content : List Char)
      (rest : List FileEntry) (st : LoadState),
      endsWithTxt name = true →
      (chunkTextRecursive content 1000 100).length = 5 →
      (∀ c ∈ chunkTextRecursive content 1000 100, goTrimSpace c ≠ []) →
      ((chunkTextRecursive content 1000 100).filter
          (fun c => !(embedSucceeds net c))).length = 1 →
      (processChunks net name st (chunkTextRecursive content 1000 100)).2 = 4 ∧
      (processChunks net name st
          (chunkTextRecursive content 1000 100)).1.documentStore.length =
        st.documentStore.length + 4 ∧
      loadFiles net ({ name := name, isDir := false, content := .ok content } :: rest) st =
        ((loadFiles net rest
            (processChunks net name st (chunkTextRecursive content 1000 100)).1).1,
         (loadFiles net rest
            (processChunks net name st (chunkTextRecursive content 1000 100)).1).2.1 + 1,
         (loadFiles net rest
            (processChunks net name st (chunkTextRecursive content 1000 100)).1).2.2 + 4) := by
  intro net name content rest st htxt hlen hws hfail
  have hspec := processChunks_spec net name (chunkTextRecursive content 1000 100) st
  have hcong : (chunkTextRecursive content 1000 100).filter (chunkAccepted net) =
      (chunkTextRecursive content 1000 100).filter (embedSucceeds net) := by
    apply List.filter_congr
    intro c hc
    simp [chunkAccepted, hws c hc]
  have hsum := length_filter_add_length_filter_not (embedSucceeds net)
    (chunkTextRecursive content 1000 100)
  have hcount : (processChunks net name st (chunkTextRecursive content 1000 100)).2 = 4 := by
    rw [hspec.1, hcong]
    omega
  refine ⟨hcount, by rw [hspec.2, hcount], ?_⟩
  simp only [loadFiles]
  rw [if_pos ⟨trivial, htxt⟩]
  simp only [hcount]

/-- C8: the operation-fatal paths of `LoadPersonalData` preserve the frame
conditions: a dialog dismissal (`shellItem is nil`) and an empty selected
path are reported by their distinct cancellation statuses and leave the store
and the id counter exactly as they were, while a directory that cannot be
enumerated is reported as an error with the store left cleared. -/
theorem loadPersonalData_fatal_paths :
    ∀ (net : List Char → EmbedResponse) (readDir : Except String (List FileEntry))
      (st : LoadState) (path errD : String),
      LoadPersonalData net (.dlgError "shellItem is nil") readDir st =
        ("Document loading cancelled by user (dialog closed).", st) ∧
      LoadPersonalData net (.selected "") readDir st =
        ("Document loading cancelled by user (no directory selected).", st) ∧
      (path ≠ "" →
        LoadPersonalData net (.selected path) (.error errD) st =
          ("error reading directory " ++ path ++ ": " ++ errD,
           { documentStore := [], nextDocumentID := 1 })) := by
  intro net readDir st path errD
  refine ⟨?_, ?_, fun hpath => ?_⟩
  · simp [LoadPersonalData]
  · simp [LoadPersonalData]
  · simp [LoadPersonalData, hpath]

/-- C8 (witness): the fatal-path theorem at a concrete pre-state holding one
record, showing that cancellation keeps it and a read failure clears it. -/
theorem loadPersonalData_fatal_paths_witness :
    LoadPersonalData (fun _ => .connError) (.dlgError "shellItem is nil") (.ok [])
        { documentStore := [{ ID := 1, Text := ['x'], Embedding := [1],
                              SourceFile := ['f'], Score := 0 }],
          nextDocumentID := 2 } =
      ("Document loading cancelled by user (dialog closed).",
       { documentStore := [{ ID := 1, Text := ['x'], Embedding := [1],
                             SourceFile := ['f'], Score := 0 }],
         nextDocumentID := 2 }) ∧
    LoadPersonalData (fun _ => .connError) (.selected "d") (.error "boom")
        { documentStore := [{ ID := 1, Text := ['x'], Embedding := [1],
                              SourceFile := ['f'], Score := 0 }],
          nextDocumentID := 2 } =
      ("error reading directory d: boom",
       { documentStore := [], nextDocumentID := 1 }) := by
  refine ⟨(loadPersonalData_fatal_paths (fun _ => .connError) (.ok [])
      { documentStore := [{ ID := 1, Text := ['x'], Embedding := [1],
                            SourceFile := ['f'], Score := 0 }],
        nextDocumentID := 2 } "d" "boom").1, ?_⟩
  exact (loadPersonalData_fatal_paths (fun _ => .connError) (.error "boom")
      { documentStore := [{ ID := 1, Text := ['x'], Embedding := [1],
                            SourceFile := ['f'], Score := 0 }],
        nextDocumentID := 2 } "d" "boom").2.2 (by decide)

/-- Scanning a run of `'a'`s never matches the `"\n\n"` separator: the run
moves into the accumulator unchanged. -/
theorem splitOnListAux_run (k : Nat) :
    ∀ (fuel : Nat) (l acc : List Char),
      splitOnListAux "\n\n".toList (fuel + k) (List.replicate k 'a' ++ l) acc =
      splitOnListAux "\n\n".toList fuel l (List.replicate k 'a' ++ acc) := by
  induction k with
  | zero => intro fuel l acc; simp
  | succ k ih =>
      intro fuel l acc
      rw [List.replicate_succ, List.cons_append]
      show splitOnListAux _ ((fuel + k) + 1) _ _ = _
      rw [splitOnListAux]
      rw [if_neg (by
        intro hand
        have := hand.2
        simp [List.isPrefixOf] at this)]
      rw [ih fuel l ('a' :: acc)]
      congr 1
      rw [show ('a' :: acc : List Char) = ['a'] ++ acc from rfl, ← List.append_assoc,
        ← List.replicate_succ', List.replicate_succ, List.cons_append]

/-- Hitting the `"\n\n"` separator flushes the accumulator and restarts. -/
theorem splitOnListAux_hit (fuel : Nat) (rest acc : List Char) :
    splitOnListAux "\n\n".toList (fuel + 1) ('\n' :: '\n' :: rest) acc =
    acc.reverse :: splitOnListAux "\n\n".toList fuel rest [] := by
  rw [splitOnListAux]
  rw [if_pos ⟨by decide, by simp [List.isPrefixOf]⟩]
  rfl

/-- Exhausting the input flushes the accumulator. -/
theorem splitOnListAux_nil (fuel : Nat) (acc : List Char) :
    splitOnListAux "\n\n".toList fuel [] acc = [acc.reverse] := by
  cases fuel <;> rfl

/-- Trimming a non-empty run of `'a'`s changes nothing. -/
theorem goTrimSpace_replicate (n : Nat) (hn : 0 < n) :
    goTrimSpace (List.replicate n 'a') = List.replicate n 'a' := by
  obtain ⟨m, rfl⟩ : ∃ m, n = m + 1 := ⟨n - 1, by omega⟩
  have h1 : List.dropWhile isGoSpace (List.replicate (m + 1) 'a') =
      List.replicate (m + 1) 'a' := by
    rw [List.replicate_succ, List.dropWhile_cons]
    simp [isGoSpace]
  unfold goTrimSpace
  rw [h1, List.reverse_replicate, h1, List.reverse_replicate]

/-- A five-paragraph document for exercising the ingestion chunk loop: four
paragraphs of 501 characters and one of 502, separated by blank lines. -/
def fiveParagraphs : List Char :=
  List.replicate 501 'a' ++ '\n' :: '\n' ::
  (List.replicate 501 'a' ++ '\n' :: '\n' ::
  (List.replicate 502 'a' ++ '\n' :: '\n' ::
  (List.replicate 501 'a' ++ '\n' :: '\n' :: List.replicate 501 'a')))

/-- A network behavior that fails the embedding of exactly the 502-character
chunk and embeds everything else as the vector `[1]`. -/
noncomputable def failOn502 : List Char → EmbedResponse := fun c =>
  if c.length = 502 then .connError else .decoded [1]

/-- Splitting the five-paragraph document on the paragraph separator yields
exactly the five runs. -/
theorem split_fiveParagraphs :
    splitOnList "\n\n".toList fiveParagraphs =
    [List.replicate 501 'a', List.replicate 501 'a', List.replicate 502 'a',
     List.replicate 501 'a', List.replicate 501 'a'] := by
  have hlen : fiveParagraphs.length = 2514 := by
    simp only [fiveParagraphs, List.length_append, List.length_cons,
      List.length_replicate]
  unfold splitOnList
  rw [hlen]
  unfold fiveParagraphs
  rw [show (2514 : Nat) = 2013 + 501 from rfl, splitOnListAux_run]
  rw [show (2013 : Nat) = 2012 + 1 from rfl, splitOnListAux_hit]
  rw [show (2012 : Nat) = 1511 + 501 from rfl, splitOnListAux_run]
  rw [show (1511 : Nat) = 1510 + 1 from rfl, splitOnListAux_hit]
  rw [show (1510 : Nat) = 1008 + 502 from rfl, splitOnListAux_run]
  rw [show (1008 : Nat) = 1007 + 1 from rfl, splitOnListAux_hit]
  rw [show (1007 : Nat) = 506 + 501 from rfl, splitOnListAux_run]
  rw [show (506 : Nat) = 505 + 1 from rfl, splitOnListAux_hit]
  rw [show (505 : Nat) = 4 + 501 from rfl]
  rw [show (List.replicate 501 'a' : List Char) =
        List.replicate 501 'a' ++ [] from (List.append_nil _).symm]
  rw [splitOnListAux_run, splitOnListAux_nil]
  simp only [List.append_nil, List.reverse_replicate]

/-- The merge loop starting with an empty buffer adopts the first part. -/
theorem mergePartsGo_start (cs : Int) (sep : List Char) (q : List Char)
    (rest chunks : List (List Char)) :
    mergePartsGo cs sep (q :: rest) chunks [] =
    mergePartsGo cs sep rest chunks q := by
  rw [mergePartsGo]
  rw [if_neg (by intro hand; exact hand.2 rfl)]
  rw [if_pos rfl]

/-- When the buffered part plus the next part overflow the chunk size, the
buffer is flushed and the next part starts a new buffer. -/
theorem mergePartsGo_flush (cs : Int) (sep : List Char) (p q : List Char)
    (rest chunks : List (List Char)) (hp : p ≠ [])
    (hbig : Int.ofNat (p.length + sep.length + q.length) > cs) :
    mergePartsGo cs sep (q :: rest) chunks p =
    mergePartsGo cs sep rest (chunks ++ [p]) q := by
  rw [mergePartsGo]
  rw [if_neg hp, if_pos ⟨hbig, hp⟩]

/-- Exhausting the parts flushes the non-empty buffer. -/
theorem mergePartsGo_end (cs : Int) (sep : List Char) (p : List Char)
    (chunks : List (List Char)) (hp : p ≠ []) :
    mergePartsGo cs sep [] chunks p = chunks ++ [p] := by
  rw [mergePartsGo, if_neg hp]

/-- Chunking the five-paragraph document with the ingestion parameters
`(1000, 100)` yields exactly the five paragraph runs as chunks. -/
theorem chunk_fiveParagraphs :
    chunkTextRecursive fiveParagraphs 1000 100 =
    [List.replicate 501 'a', List.replicate 501 'a', List.replicate 502 'a',
     List.replicate 501 'a', List.replicate 501 'a'] := by
  have hne501 : (List.replicate 501 'a' : List Char) ≠ [] := by
    intro h
    have h2 := congrArg List.length h
    simp only [List.length_replicate, List.length_nil] at h2
    omega
  have hne502 : (List.replicate 502 'a' : List Char) ≠ [] := by
    intro h
    have h2 := congrArg List.length h
    simp only [List.length_replicate, List.length_nil] at h2
    omega
  have hnec : fiveParagraphs ≠ [] := by
    intro h
    have h2 := congrArg List.length h
    simp only [fiveParagraphs, List.length_append, List.length_cons,
      List.length_replicate, List.length_nil] at h2
    omega
  have e1 : ((List.replicate 501 'a' : List Char) = []) = False := eq_false hne501
  have e2 : ((List.replicate 502 'a' : List Char) = []) = False := eq_false hne502
  have g1 : (Int.ofNat (List.replicate 501 'a' : List Char).length > 1000) = False := by
    rw [List.length_replicate]
    exact eq_false (by decide)
  have g2 : (Int.ofNat (List.replicate 502 'a' : List Char).length > 1000) = False := by
    rw [List.length_replicate]
    exact eq_false (by decide)
  have ht501 : goTrimSpace (List.replicate 501 'a') = List.replicate 501 'a' :=
    goTrimSpace_replicate 501 (by norm_num)
  have ht502 : goTrimSpace (List.replicate 502 'a') = List.replicate 502 'a' :=
    goTrimSpace_replicate 502 (by norm_num)
  have hb1 : Int.ofNat ((List.replicate 501 'a' : List Char).length +
      ("\n\n".toList : List Char).length +
      (List.replicate 501 'a' : List Char).length) > 1000 := by
    simp only [List.length_replicate]
    decide
  have hb2 : Int.ofNat ((List.replicate 501 'a' : List Char).length +
      ("\n\n".toList : List Char).length +
      (List.replicate 502 'a' : List Char).length) > 1000 := by
    simp only [List.length_replicate]
    decide
  have hb3 : Int.ofNat ((List.replicate 502 'a' : List Char).length +
      ("\n\n".toList : List Char).length +
      (List.replicate 501 'a' : List Char).length) > 1000 := by
    simp only [List.length_replicate]
    decide
  have d1 : decide (goTrimSpace (List.replicate 501 'a') ≠ []) = true := by
    rw [ht501]
    exact decide_eq_true hne501
  have d2 : decide (goTrimSpace (List.replicate 502 'a') ≠ []) = true := by
    rw [ht502]
    exact decide_eq_true hne502
  unfold chunkTextRecursive
  rw [if_neg (by norm_num)]
  rw [show clampOverlapChars 1000 100 = 100 from by decide]
  unfold defaultRecursiveSeparators
  rw [doRecursiveSplit]
  rw [if_neg hnec]
  rw [if_neg (fun hand => absurd hand.2.1 (by decide))]
  rw [if_neg (by decide)]
  rw [split_fiveParagraphs]
  simp only [List.flatMap_cons, List.flatMap_nil, e1, e2, g1, g2, if_false,
    List.singleton_append, List.append_nil, List.cons_append, List.nil_append]
  unfold mergeParts
  rw [mergePartsGo_start, mergePartsGo_flush 1000 _ _ _ _ _ hne501 hb1,
    mergePartsGo_flush 1000 _ _ _ _ _ hne501 hb2,
    mergePartsGo_flush 1000 _ _ _ _ _ hne502 hb3,
    mergePartsGo_flush 1000 _ _ _ _ _ hne501 hb1,
    mergePartsGo_end 1000 _ _ _ hne501]
  simp only [List.nil_append, List.cons_append, List.singleton_append]
  simp only [List.filter_cons, List.filter_nil, d1, d2, if_true]

/-- A positive number of repetitions yields a non-empty run. -/
theorem replicate_pos_ne_nil (n : Nat) (hn : 0 < n) (a : Char) :
    List.replicate n a ≠ [] := by
  intro h
  have h2 := congrArg List.length h
  simp only [List.length_replicate, List.length_nil] at h2
  omega

/-- C4 (witness): the chunk-failure-isolation theorem at the five-paragraph
document, whose 502-character chunk is the one failing chunk: four records
are appended from an initially empty store. -/
theorem loadPersonalData_chunk_failure_isolation_witness :
    (processChunks failOn502 "f.txt".toList
        { documentStore := [], nextDocumentID := 1 }
        (chunkTextRecursive fiveParagraphs 1000 100)).2 = 4 ∧
    (processChunks failOn502 "f.txt".toList
        { documentStore := [], nextDocumentID := 1 }
        (chunkTextRecursive fiveParagraphs 1000 100)).1.documentStore.length = 0 + 4 := by
  have s501 : embedSucceeds failOn502 (List.replicate 501 'a') = true := by
    simp only [embedSucceeds, failOn502, List.length_replicate]
    norm_num [getOllamaEmbedding]
  have s502 : embedSucceeds failOn502 (List.replicate 502 'a') = false := by
    simp only [embedSucceeds, failOn502, List.length_replicate]
    norm_num [getOllamaEmbedding]
  have h := loadPersonalData_chunk_failure_isolation failOn502 "f.txt".toList
    fiveParagraphs [] { documentStore := [], nextDocumentID := 1 }
    (by decide)
    (by rw [chunk_fiveParagraphs]; rfl)
    (by
      rw [chunk_fiveParagraphs]
      intro c hc
      simp only [List.mem_cons, List.not_mem_nil, or_false] at hc
      rcases hc with rfl | rfl | rfl | rfl | rfl
      · rw [goTrimSpace_replicate 501 (by norm_num)]
        exact replicate_pos_ne_nil 501 (by norm_num) 'a'
      · rw [goTrimSpace_replicate 501 (by norm_num)]
        exact replicate_pos_ne_nil 501 (by norm_num) 'a'
      · rw [goTrimSpace_replicate 502 (by norm_num)]
        exact replicate_pos_ne_nil 502 (by norm_num) 'a'
      · rw [goTrimSpace_replicate 501 (by norm_num)]
        exact replicate_pos_ne_nil 501 (by norm_num) 'a'
      · rw [goTrimSpace_replicate 501 (by norm_num)]
        exact replicate_pos_ne_nil 501 (by norm_num) 'a')
    (by
      rw [chunk_fiveParagraphs]
      simp only [List.filter_cons, List.filter_nil, s501, s502, Bool.not_true,
        Bool.not_false, Bool.false_eq_true, eq_self_iff_true, if_true, if_false,
        List.length_cons, List.length_nil])
  exact ⟨h.1, h.2.1⟩

/-- `getOllamaEmbedding` never succeeds with an empty vector (`app.go` lines
172-175). -/
theorem getOllamaEmbedding_ok_ne_nil :
    ∀ (resp : EmbedResponse) (v : List ℝ),
      getOllamaEmbedding resp = .ok v → v ≠ [] := by
  intro resp v h
  cases resp with
  | connError => simp [getOllamaEmbedding] at h
  | httpError => simp [getOllamaEmbedding] at h
  | badJSON => simp [getOllamaEmbedding] at h
  | decoded emb =>
      simp only [getOllamaEmbedding] at h
      by_cases hz : emb.length = 0
      · rw [if_pos hz] at h
        simp at h
      · rw [if_neg hz] at h
        cases h
        intro hnil
        rw [hnil] at hz
        simp at hz

/-- The chunk loop preserves the all-embeddings-non-empty invariant. -/
theorem processChunks_embedding_invariant (net : List Char → EmbedResponse)
    (fn : List Char) :
    ∀ (chunks : List (List Char)) (st : LoadState),
      (∀ c ∈ st.documentStore, c.Embedding ≠ []) →
      ∀ c ∈ (processChunks net fn st chunks).1.documentStore, c.Embedding ≠ [] := by
  intro chunks
  induction chunks with
  | nil => intro st hinv; simpa [processChunks] using hinv
  | cons ct more ih =>
      intro st hinv
      by_cases hws : goTrimSpace ct = []
      · simpa [processChunks, if_pos hws] using ih st hinv
      · cases hge : getOllamaEmbedding (net ct) with
        | error e =>
            simpa [processChunks, if_neg hws, hge] using ih st hinv
        | ok emb =>
            simp only [processChunks, if_neg hws, hge]
            apply ih
            intro c hc
            rcases List.mem_append.mp hc with hold | hnew
            · exact hinv c hold
            · simp only [List.mem_singleton] at hnew
              subst hnew
              exact getOllamaEmbedding_ok_ne_nil (net ct) emb hge

/-- The directory loop preserves the all-embeddings-non-empty invariant. -/
theorem loadFiles_embedding_invariant (net : List Char → EmbedResponse) :
    ∀ (entries : List FileEntry) (st : LoadState),
      (∀ c ∈ st.documentStore, c.Embedding ≠ []) →
      ∀ c ∈ (loadFiles net entries st).1.documentStore, c.Embedding ≠ [] := by
  intro entries
  induction entries with
  | nil => intro st hinv; simpa [loadFiles] using hinv
  | cons e rest ih =>
      intro st hinv
      by_cases hsel : e.isDir = false ∧ endsWithTxt e.name = true
      · cases hcont : e.content with
        | error err =>
            simpa [loadFiles, if_pos hsel, hcont] using ih st hinv
        | ok content =>
            simp only [loadFiles, if_pos hsel, hcont]
            exact ih _ (processChunks_embedding_invariant net e.name _ st hinv)
      · simpa [loadFiles, if_neg hsel] using ih st hinv

/-- C10: every record present in the store after a `LoadPersonalData` run
over a store that only ever held ingested records has a non-empty embedding:
`getOllamaEmbedding` never returns success with an empty vector, and only
successfully embedded chunks are appended — so the empty-embedding skip
branch of `findRelevantChunks` (its `chunk.Embedding.length = 0` test) is
false at every record of such a store. -/
theorem loadPersonalData_embeddings_nonempty :
    (∀ (resp : EmbedResponse) (v : List ℝ),
      getOllamaEmbedding resp = .ok v → v ≠ []) ∧
    ∀ (net : List Char → EmbedResponse) (dialog : DialogResult)
      (readDir : Except String (List FileEntry)) (st : LoadState),
      (∀ c ∈ st.documentStore, c.Embedding ≠ []) →
      ∀ c ∈ (LoadPersonalData net dialog readDir st).2.documentStore,
        ¬c.Embedding.length = 0 := by
  refine ⟨getOllamaEmbedding_ok_ne_nil, ?_⟩
  intro net dialog readDir st hinv c hc
  rw [List.length_eq_zero]
  revert hc
  cases dialog with
  | dlgError msg =>
      by_cases hmsg : msg = "shellItem is nil"
      · simp only [LoadPersonalData, if_pos hmsg]
        exact fun hc => hinv c hc
      · simp only [LoadPersonalData, if_neg hmsg]
        exact fun hc => hinv c hc
  | selected path =>
      by_cases hpath : path = ""
      · simp only [LoadPersonalData, if_pos hpath]
        exact fun hc => hinv c hc
      · simp only [LoadPersonalData, if_neg hpath]
        cases readDir with
        | error e => simp
        | ok entries =>
            exact fun hc =>
              loadFiles_embedding_invariant net entries
                { documentStore := [], nextDocumentID := 1 } (by simp) c hc

/-- C10 (witness): the invariant theorem at a concrete run that loads one
chunk into an initially empty store. -/
theorem loadPersonalData_embeddings_nonempty_witness :
    (∃ v, getOllamaEmbedding (.decoded [1]) = .ok v) ∧
    ∀ c ∈ (LoadPersonalData (fun _ => .decoded [1]) (.selected "d")
        (.ok [{ name := "a.txt".toList, isDir := false, content := .ok "hi".toList }])
        { documentStore := [], nextDocumentID := 1 }).2.documentStore,
      ¬c.Embedding.length = 0 := by
  refine ⟨⟨[1], rfl⟩, ?_⟩
  exact loadPersonalData_embeddings_nonempty.2 (fun _ => .decoded [1]) (.selected "d")
    (.ok [{ name := "a.txt".toList, isDir := false, content := .ok "hi".toList }])
    { documentStore := [], nextDocumentID := 1 } (by simp)

/-- C9: the intermediate store states of a concrete reload are observable
evidence against reader-side atomicity.  `LoadPersonalData` holds `a.mu`
while it mutates `a.documentStore`, but the read path — `HandleMessage`
calling `findRelevantChunks` (`app.go` lines 695-714 and 503-543) — never
acquires `a.mu`, even though the field's own comment (`app.go` line 55) says
the mutex protects it.  A reload of a one-chunk directory over a previously
loaded one-chunk corpus passes through the cleared store: the mutation
sequence of store sizes is `[0, 1]` while both the pre-load and post-load
snapshots hold `1` record, so an unsynchronized concurrent read can observe
`0 < min 1 1` records. -/
theorem ingestion_not_atomic_for_readers :
    (LoadPersonalData (fun _ => .decoded [1]) (.selected "d")
        (.ok [{ name := "a.txt".toList, isDir := false, content := .ok "hi".toList }])
        { documentStore := [{ ID := 1, Text := ['o'], Embedding := [1],
                              SourceFile := ['o'], Score := 0 }],
          nextDocumentID := 2 }).2.documentStore.length = 1 ∧
    ({ documentStore := [{ ID := 1, Text := ['o'], Embedding := [1],
                           SourceFile := ['o'], Score := 0 }],
       nextDocumentID := 2 } : LoadState).documentStore.length = 1 ∧
    (ingestionStoreStates (fun _ => .decoded [1])
        [{ name := "a.txt".toList, isDir := false, content := .ok "hi".toList }]).map
      List.length = [0, 1] := by
  refine ⟨by decide, rfl, by decide⟩

/-- Pointwise products are insensitive to the argument order. -/
theorem zipWith_mul_comm (A B : List ℝ) :
    List.zipWith (fun a b => a * b) A B = List.zipWith (fun a b => a * b) B A := by
  induction A generalizing B with
  | nil => cases B <;> simp
  | cons a A ih =>
      cases B with
      | nil => simp
      | cons b B => simp [mul_comm, ih]

/-- The magnitude of an all-zero vector is zero. -/
theorem sqrt_sum_sq_zero (A : List ℝ) (h : ∀ x ∈ A, x = 0) :
    Real.sqrt ((A.map fun a => a * a).sum) = 0 := by
  have hs : ((A.map fun a => a * a).sum) = 0 := by
    apply List.sum_eq_zero
    intro y hy
    rcases List.mem_map.mp hy with ⟨x, hx, rfl⟩
    rw [h x hx]
    ring
  rw [hs, Real.sqrt_zero]

/-- C7: `cosineSimilarity` is symmetric on equal-length vectors, returns
similarity `0` (not an error) when either vector is all-zero, and reports an
error exactly when the lengths differ or the vectors are empty. -/
theorem cosineSimilarity_symm_zero_error :
    ∀ (A B : List ℝ),
      (A.length = B.length → cosineSimilarity A B = cosineSimilarity B A) ∧
      (A.length = B.length → A ≠ [] →
        ((∀ x ∈ A, x = 0) ∨ (∀ x ∈ B, x = 0)) → cosineSimilarity A B = .ok 0) ∧
      ((∃ e, cosineSimilarity A B = .error e) ↔ A.length ≠ B.length ∨ A = []) := by
  intro A B
  refine ⟨?_, ?_, ?_⟩
  · intro hl
    simp only [cosineSimilarity]
    rw [if_neg (show ¬A.length ≠ B.length by omega),
      if_neg (show ¬B.length ≠ A.length by omega)]
    by_cases hz : A.length = 0
    · rw [if_pos hz, if_pos (show B.length = 0 by omega)]
    · rw [if_neg hz, if_neg (show ¬B.length = 0 by omega)]
      rw [zipWith_mul_comm]
      exact if_congr or_comm rfl (by rw [mul_comm])
  · intro hl hne hzero
    simp only [cosineSimilarity]
    rw [if_neg (show ¬A.length ≠ B.length by omega)]
    rw [if_neg (show ¬A.length = 0 from fun h0 =>
      hne (List.length_eq_zero.mp h0))]
    rcases hzero with hA | hB
    · rw [if_pos (Or.inl (sqrt_sum_sq_zero A hA))]
    · rw [if_pos (Or.inr (sqrt_sum_sq_zero B hB))]
  · constructor
    · rintro ⟨e, he⟩
      by_cases h1 : A.length ≠ B.length
      · exact Or.inl h1
      · simp only [cosineSimilarity, if_neg h1] at he
        by_cases h2 : A.length = 0
        · exact Or.inr (List.length_eq_zero.mp h2)
        · rw [if_neg h2] at he
          split_ifs at he <;> simp at he
    · intro h
      rcases h with h1 | h2
      · exact ⟨.lengthMismatch A.length B.length, by simp [cosineSimilarity, if_pos h1]⟩
      · subst h2
        by_cases hb : ([] : List ℝ).length ≠ B.length
        · refine ⟨.lengthMismatch ([] : List ℝ).length B.length, ?_⟩
          simp only [cosineSimilarity]
          rw [if_pos hb]
        · refine ⟨.emptyVectors, ?_⟩
          simp only [cosineSimilarity, if_neg hb]
          rw [if_pos (show ([] : List ℝ).length = 0 from rfl)]

/-- C7 (witness): the cosine theorem at concrete vectors: symmetry of
`[0]`/`[3]`, an all-zero vector yielding similarity `0`, and the empty-vector
error. -/
theorem cosineSimilarity_symm_zero_error_witness :
    cosineSimilarity [0] [3] = cosineSimilarity [3] [0] ∧
    cosineSimilarity [0] [3] = .ok 0 ∧
    (∃ e, cosineSimilarity ([] : List ℝ) [] = .error e) := by
  refine ⟨(cosineSimilarity_symm_zero_error [0] [3]).1 rfl, ?_, ?_⟩
  · exact (cosineSimilarity_symm_zero_error [0] [3]).2.1 rfl (by simp)
      (Or.inl (by simp))
  · exact (cosineSimilarity_symm_zero_error [] []).2.2.mpr (Or.inr rfl)

/-- The score order is total. -/
instance : IsTotal rankedChunk rankedLE :=
  ⟨fun a b => le_total b.score a.score⟩

/-- The score order is transitive. -/
instance : IsTrans rankedChunk rankedLE :=
  ⟨fun _ _ _ hab hbc => le_trans hbc hab⟩

/-- Insertion sort by descending score is an admissible `sort.Slice`
behavior. -/
theorem goodSortRanked_ok : SortSliceOK goodSortRanked := by
  intro l
  exact ⟨List.perm_insertionSort rankedLE l, List.sorted_insertionSort rankedLE l⟩

/-- Sorting the reversed list is also an admissible `sort.Slice` behavior: it
is a permutation and sorted by the comparator, but it emits equal scores in
descending insertion order. -/
theorem badSortRanked_ok : SortSliceOK badSortRanked := by
  intro l
  exact ⟨(List.perm_insertionSort rankedLE l.reverse).trans (List.reverse_perm l),
    List.sorted_insertionSort rankedLE l.reverse⟩

/-- C1 (amended): for every admissible `sort.Slice` behavior, every query,
every store and every positive `topN`, `findRelevantChunks` returns at most
`topN` records, sorted by non-increasing score, and returns the empty list
(not an error) on the empty store.  The order of records with equal scores is
not specified (see the counterexample). -/
theorem findRelevantChunks_ranking :
    ∀ (f : List rankedChunk → List rankedChunk), SortSliceOK f →
    ∀ (store : List DocumentChunk) (q : List ℝ) (topN : Int), 0 < topN →
      Int.ofNat (findRelevantChunks f store q topN).length ≤ topN ∧
      (findRelevantChunks f store q topN).Pairwise (fun a b => b.Score ≤ a.Score) ∧
      (store = [] → findRelevantChunks f store q topN = []) := by
  intro f hf store q topN htop
  unfold findRelevantChunks
  by_cases hs : store.length = 0
  · rw [if_pos hs]
    refine ⟨by simp only [List.length_nil, Int.ofNat_eq_coe]; omega,
      List.Pairwise.nil, fun _ => rfl⟩
  · rw [if_neg hs]
    dsimp only
    rw [if_neg (show ¬topN ≤ 0 by omega)]
    refine ⟨?_, ?_, ?_⟩
    · simp only [List.length_map, List.length_take, Int.ofNat_eq_coe]
      omega
    · apply List.Pairwise.map
      · intro a b hab
        exact hab
      · exact ((hf (rankedChunksOf q store)).2).sublist (List.take_sublist _ _)
    · intro hempty
      subst hempty
      simp at hs

/-- C1 (witness): the ranking theorem at a concrete admissible sort and the
empty store. -/
theorem findRelevantChunks_ranking_witness :
    Int.ofNat (findRelevantChunks goodSortRanked [] [1] 3).length ≤ 3 ∧
    (findRelevantChunks goodSortRanked [] [1] 3).Pairwise
      (fun a b => b.Score ≤ a.Score) ∧
    findRelevantChunks goodSortRanked [] [1] 3 = [] := by
  obtain ⟨h1, h2, h3⟩ := findRelevantChunks_ranking goodSortRanked goodSortRanked_ok
    [] [1] 3 (by norm_num)
  exact ⟨h1, h2, h3 rfl⟩

/-- `4 = 2 * 2`, so its square root is `2`. -/
theorem sqrt_four : Real.sqrt 4 = 2 := by
  rw [show (4 : ℝ) = 2 ^ 2 by norm_num, Real.sqrt_sq (by norm_num)]

/-- Cosine similarity of the one-dimensional vectors `[1]` and `[1]` is 1. -/
theorem cosineSimilarity_one_one : cosineSimilarity [(1 : ℝ)] [1] = .ok 1 := by
  simp only [cosineSimilarity]
  rw [if_neg (by simp), if_neg (by simp)]
  rw [show ((List.map (fun a => a * a) [(1 : ℝ)]).sum) = 1 by simp]
  rw [Real.sqrt_one]
  rw [if_neg (by norm_num)]
  rw [show ((List.zipWith (fun a b => a * b) [(1 : ℝ)] [1]).sum) = 1 by simp]
  norm_num

/-- Cosine similarity of the one-dimensional vectors `[1]` and `[2]` is also
1: one-dimensional vectors of the same sign are perfectly similar. -/
theorem cosineSimilarity_one_two : cosineSimilarity [(1 : ℝ)] [2] = .ok 1 := by
  simp only [cosineSimilarity]
  rw [if_neg (by simp), if_neg (by simp)]
  rw [show ((List.map (fun a => a * a) [(1 : ℝ)]).sum) = 1 by simp]
  rw [show ((List.map (fun b => b * b) [(2 : ℝ)]).sum) = 4 by norm_num]
  rw [Real.sqrt_one, sqrt_four]
  rw [if_neg (by norm_num)]
  rw [show ((List.zipWith (fun a b => a * b) [(1 : ℝ)] [2]).sum) = 2 by norm_num]
  norm_num

/-- Two stored chunks whose one-dimensional embeddings `[1]` and `[2]` both
have cosine similarity `1` to the query `[1]`: a score tie between ids 1
and 2. -/
def tieChunkA : DocumentChunk :=
  { ID := 1, Text := "ta".toList, Embedding := [1], SourceFile := "f".toList,
    Score := 0 }

/-- The second of the two tied chunks. -/
def tieChunkB : DocumentChunk :=
  { ID := 2, Text := "tb".toList, Embedding := [2], SourceFile := "f".toList,
    Score := 0 }

/-- The ranking scan of the two tied chunks scores both at `1`, in store
order. -/
theorem rankedChunksOf_tie :
    rankedChunksOf [1] [tieChunkA, tieChunkB] =
    [⟨tieChunkA, 1⟩, ⟨tieChunkB, 1⟩] := by
  simp only [rankedChunksOf, List.filterMap_cons, List.filterMap_nil, tieChunkA,
    tieChunkB, cosineSimilarity_one_one, cosineSimilarity_one_two]
  norm_num

/-- The anti-stable admissible sort emits the tied scores in reversed store
order. -/
theorem badSortRanked_tie :
    badSortRanked [⟨tieChunkA, 1⟩, ⟨tieChunkB, 1⟩] =
    [⟨tieChunkB, 1⟩, ⟨tieChunkA, 1⟩] := by
  unfold badSortRanked
  rw [show ([⟨tieChunkA, 1⟩, ⟨tieChunkB, 1⟩] : List rankedChunk).reverse =
    [⟨tieChunkB, 1⟩, ⟨tieChunkA, 1⟩] from rfl]
  simp only [List.insertionSort, List.orderedInsert]
  rw [if_pos (show rankedLE ⟨tieChunkB, 1⟩ ⟨tieChunkA, 1⟩ from le_refl 1)]

/-- C1 (counterexample): `sort.Slice` is not guaranteed to be stable, and an
admissible behavior of it makes `findRelevantChunks` return two equal-score
records in *descending* id order `[2, 1]`, contradicting the claimed
ascending-id tie-break. -/
theorem findRelevantChunks_tie_order_cex :
    SortSliceOK badSortRanked ∧
    (findRelevantChunks badSortRanked [tieChunkA, tieChunkB] [1] 3).map
        (fun c => (c.ID, c.Score)) = [(2, 1), (1, 1)] := by
  refine ⟨badSortRanked_ok, ?_⟩
  unfold findRelevantChunks
  rw [if_neg (by simp)]
  dsimp only
  rw [if_neg (by norm_num)]
  rw [rankedChunksOf_tie, badSortRanked_tie]
  rw [show (min (3 : Int)
      (Int.ofNat ([⟨tieChunkB, 1⟩, ⟨tieChunkA, 1⟩] : List rankedChunk).length)).toNat = 2
    from by decide]
  simp [tieChunkA, tieChunkB, List.take]

/-- Every selected chunk's text appears verbatim inside the context body of
the augmented prompt. -/
theorem ragChunksBody_text_appears (fmt : ℝ → List Char) :
    ∀ (chunks : List DocumentChunk), ∀ c ∈ chunks,
      c.Text <:+: ragChunksBody fmt chunks := by
  intro chunks
  induction chunks with
  | nil => intro c hc; simp at hc
  | cons c0 rest ih =>
      intro c hc
      rcases List.mem_cons.mp hc with rfl | hmem
      · have h1 : c.Text <:+ ragChunkBlock fmt c := by
          unfold ragChunkBlock
          exact List.suffix_append _ _
        cases rest with
        | nil =>
            show c.Text <:+: ragChunkBlock fmt c ++ _
            exact h1.isInfix.trans (List.prefix_append _ _).isInfix
        | cons c1 more =>
            show c.Text <:+: ragChunkBlock fmt c ++ _ ++ _
            exact h1.isInfix.trans
              ((List.prefix_append _ _).trans (List.prefix_append _ _)).isInfix
      · cases rest with
        | nil => simp at hmem
        | cons c1 more =>
            show c.Text <:+: ragChunkBlock fmt c0 ++ _ ++ ragChunksBody fmt (c1 :: more)
            exact (ih c hmem).trans (List.suffix_append _ _).isInfix

/-- The augmented prompt contains every selected chunk's text and ends with
the user's question. -/
theorem ragPrompt_contains (fmt : ℝ → List Char) (chunks : List DocumentChunk)
    (input : List Char) :
    (∀ c ∈ chunks, c.Text <:+: ragPrompt fmt chunks input) ∧
    input <:+: ragPrompt fmt chunks input := by
  constructor
  · intro c hc
    refine (ragChunksBody_text_appears fmt chunks c hc).trans ?_
    unfold ragPrompt
    exact (List.suffix_append _ _).isInfix.trans
      ((List.prefix_append _ _).trans (List.prefix_append _ _)).isInfix
  · unfold ragPrompt
    exact (List.suffix_append _ _).isInfix

/-- C3: the relevance gate of `HandleMessage`.  When retrieval returns a
non-empty ranked list whose top score is below `ragRelevanceThreshold`
(`0.5`), the prompt handed to generation is the raw user input; when the top
score is at or above the threshold, the prompt is the augmented one, which
contains every retrieved chunk's text and the user's question. -/
theorem handleMessage_threshold_gate :
    ∀ (f : List rankedChunk → List rankedChunk) (store : List DocumentChunk)
      (q : List ℝ) (input : List Char) (fmt : ℝ → List Char)
      (c0 : DocumentChunk) (rest : List DocumentChunk),
      findRelevantChunks f store q 3 = c0 :: rest →
      ((c0.Score < ragRelevanceThreshold →
          handleMessagePrompt f store q input fmt = input) ∧
       (ragRelevanceThreshold ≤ c0.Score →
          handleMessagePrompt f store q input fmt =
            ragPrompt fmt (c0 :: rest) input ∧
          (∀ c ∈ c0 :: rest,
            c.Text <:+: handleMessagePrompt f store q input fmt) ∧
          input <:+: handleMessagePrompt f store q input fmt)) := by
  intro f store q input fmt c0 rest heq
  constructor
  · intro hlt
    unfold handleMessagePrompt
    rw [heq]
    dsimp only
    rw [if_neg (not_le.mpr hlt)]
  · intro hge
    unfold handleMessagePrompt
    rw [heq]
    dsimp only
    rw [if_pos hge]
    exact ⟨rfl, (ragPrompt_contains fmt (c0 :: rest) input).1,
      (ragPrompt_contains fmt (c0 :: rest) input).2⟩

/-- A stored chunk whose embedding `[-1]` scores `-1` against the query
`[1]`: below the relevance threshold. -/
def lowChunk : DocumentChunk :=
  { ID := 1, Text := "tl".toList, Embedding := [-1], SourceFile := "f".toList,
    Score := 0 }

/-- Cosine similarity of the one-dimensional vectors `[1]` and `[-1]` is
`-1`. -/
theorem cosineSimilarity_one_negone : cosineSimilarity [(1 : ℝ)] [-1] = .ok (-1) := by
  simp only [cosineSimilarity]
  rw [if_neg (by simp), if_neg (by simp)]
  rw [show ((List.map (fun a => a * a) [(1 : ℝ)]).sum) = 1 by simp]
  rw [show ((List.map (fun b => b * b) [(-1 : ℝ)]).sum) = 1 by norm_num]
  rw [Real.sqrt_one]
  rw [if_neg (by norm_num)]
  rw [show ((List.zipWith (fun a b => a * b) [(1 : ℝ)] [-1]).sum) = -1 by norm_num]
  norm_num

/-- Retrieval over the single high-scoring chunk returns it with score 1. -/
theorem findRelevantChunks_single_high :
    findRelevantChunks goodSortRanked [tieChunkA] [1] 3 =
    [{ tieChunkA with Score := 1 }] := by
  unfold findRelevantChunks
  rw [if_neg (by simp)]
  dsimp only
  rw [if_neg (by norm_num)]
  rw [show rankedChunksOf [1] [tieChunkA] = [⟨tieChunkA, 1⟩] from by
    simp only [rankedChunksOf, List.filterMap_cons, List.filterMap_nil, tieChunkA,
      cosineSimilarity_one_one]
    norm_num]
  rw [show goodSortRanked [⟨tieChunkA, 1⟩] = [⟨tieChunkA, 1⟩] from by
    unfold goodSortRanked
    simp [List.insertionSort, List.orderedInsert]]
  rw [show (min (3 : Int)
      (Int.ofNat ([⟨tieChunkA, 1⟩] : List rankedChunk).length)).toNat = 1
    from by decide]
  simp [List.take]

/-- Retrieval over the single low-scoring chunk returns it with score -1. -/
theorem findRelevantChunks_single_low :
    findRelevantChunks goodSortRanked [lowChunk] [1] 3 =
    [{ lowChunk with Score := -1 }] := by
  unfold findRelevantChunks
  rw [if_neg (by simp)]
  dsimp only
  rw [if_neg (by norm_num)]
  rw [show rankedChunksOf [1] [lowChunk] = [⟨lowChunk, -1⟩] from by
    simp only [rankedChunksOf, List.filterMap_cons, List.filterMap_nil, lowChunk,
      cosineSimilarity_one_negone]
    norm_num]
  rw [show goodSortRanked [⟨lowChunk, -1⟩] = [⟨lowChunk, -1⟩] from by
    unfold goodSortRanked
    simp [List.insertionSort, List.orderedInsert]]
  rw [show (min (3 : Int)
      (Int.ofNat ([⟨lowChunk, -1⟩] : List rankedChunk).length)).toNat = 1
    from by decide]
  simp [List.take]

/-- C3 (witness): the gate theorem at concrete stores on both sides of the
threshold: a top score of `-1` falls back to the raw input `"hi"`, and a top
score of `1` produces the augmented prompt containing the question. -/
theorem handleMessage_threshold_gate_witness :
    handleMessagePrompt goodSortRanked [lowChunk] [1] "hi".toList (fun _ => []) =
      "hi".toList ∧
    handleMessagePrompt goodSortRanked [tieChunkA] [1] "hi".toList (fun _ => []) =
      ragPrompt (fun _ => []) [{ tieChunkA with Score := 1 }] "hi".toList ∧
    "hi".toList <:+:
      handleMessagePrompt goodSortRanked [tieChunkA] [1] "hi".toList (fun _ => []) := by
  have hlow := (handleMessage_threshold_gate goodSortRanked [lowChunk] [1]
    "hi".toList (fun _ => []) { lowChunk with Score := -1 } []
    findRelevantChunks_single_low).1
  have hhigh := (handleMessage_threshold_gate goodSortRanked [tieChunkA] [1]
    "hi".toList (fun _ => []) { tieChunkA with Score := 1 } []
    findRelevantChunks_single_high).2
  have hth : ragRelevanceThreshold = (0.5 : ℝ) := rfl
  obtain ⟨ha, -, hc⟩ := hhigh (by rw [hth]; norm_num)
  exact ⟨hlow (by rw [hth]; norm_num), ha, hc⟩
